import Mathlib

/-!
Shallow embedding of the column-name normalizer, the schema inferencer and
the statement-building parts of the table store gateway of this repository
(src/ai_service.py, src/database.py).

Python strings are modelled as `List Char`.  String operations whose
behaviour the claims depend on are embedded at full fidelity where that is
finite: the whitespace set of `str.strip`, the literal replacements, the
collision loop and the decimal rendering.  The Unicode-aware character
classes `str.isalnum` and the case mapping `str.lower` are not finitely
encodable here, so every definition built on them is parametric in the
classifying functions; theorems that depend on their behaviour outside
ASCII assume only facts that CPython's functions demonstrably satisfy
(digits are alphanumeric, lowercasing never produces an ASCII uppercase
letter, agreement with the ASCII classes on code points below 128).  The
ASCII instantiations (`pyIsAlnum`, `pyLower`) serve for concrete
evaluation on ASCII inputs, where they agree with CPython.
-/

/-- The whitespace characters stripped by Python `str.strip()`: exactly
CPython's `Py_UNICODE_ISSPACE` table, i.e. code points 9-13, 28-32,
133 (next line), 160 (no-break space), 5760 (Ogham space mark),
8192-8202, 8232, 8233, 8239, 8287 and 12288 (ideographic space). -/
def pyIsSpace (c : Char) : Bool :=
  (9 ≤ c.toNat && c.toNat ≤ 13) || (28 ≤ c.toNat && c.toNat ≤ 32) ||
  c.toNat = 133 || c.toNat = 160 || c.toNat = 5760 ||
  (8192 ≤ c.toNat && c.toNat ≤ 8202) || c.toNat = 8232 || c.toNat = 8233 ||
  c.toNat = 8239 || c.toNat = 8287 || c.toNat = 12288

/-- ASCII uppercase letter test. -/
def pyIsUpper (c : Char) : Bool := 65 ≤ c.toNat && c.toNat ≤ 90

/-- ASCII lowercase letter test. -/
def pyIsLower (c : Char) : Bool := 97 ≤ c.toNat && c.toNat ≤ 122

/-- ASCII digit test. -/
def pyIsDigit (c : Char) : Bool := 48 ≤ c.toNat && c.toNat ≤ 57

/-- Python `str.isalnum` on a single character, restricted to ASCII: the
concrete instantiation used for evaluation.  CPython's `isalnum` also
accepts non-ASCII Unicode letters and digits, so every theorem whose truth
depends on that is parametric in the predicate and assumes only agreement
with this function below code point 128. -/
def pyIsAlnum (c : Char) : Bool := pyIsDigit c || pyIsUpper c || pyIsLower c

/-- Python `str.lower` on one character, restricted to ASCII: shift an
uppercase letter down by 32, leave everything else unchanged.  CPython also
lowercases non-ASCII cased letters, so theorems sensitive to lowercasing
outside ASCII are parametric in the string-level lowercasing function. -/
def pyLowerChar (c : Char) : Char :=
  if pyIsUpper c then Char.ofNat (c.toNat + 32) else c

/-- Python `str.lower` restricted to ASCII: the concrete instantiation used
for evaluation. -/
def pyLower (s : List Char) : List Char := s.map pyLowerChar

/-- Python `str.strip()`: drop leading and trailing whitespace. -/
def pyStrip (s : List Char) : List Char :=
  ((s.dropWhile pyIsSpace).reverse.dropWhile pyIsSpace).reverse

/-- If `pat` is an initial segment of `s`, return the remainder of `s` after
it, otherwise `none`. -/
def dropPat : List Char → List Char → Option (List Char)
  | [], s => some s
  | _ :: _, [] => none
  | p :: ps, c :: cs => if c = p then dropPat ps cs else none

/-- Fueled worker for `pyReplace`.  One unit of fuel is spent per character of
the input, which suffices because every step consumes at least one input
character (the pattern is non-empty at every use site); the fuel-exhausted
branch returns the input unchanged and is never reached when the fuel is the
input length. -/
def pyReplaceF (pat rep : List Char) : Nat → List Char → List Char
  | 0, s => s
  | _ + 1, [] => []
  | fuel + 1, c :: cs =>
    match dropPat pat (c :: cs) with
    | some rest => rep ++ pyReplaceF pat rep fuel rest
    | none => c :: pyReplaceF pat rep fuel cs

/-- Python `str.replace(pat, rep)`: replace every non-overlapping occurrence
of `pat`, scanning left to right. -/
def pyReplace (pat rep s : List Char) : List Char := pyReplaceF pat rep s.length s

/-- Python `str.replace(a, b)` for one-character `a`, `b`: character-wise map. -/
def pyReplaceChar (a b : Char) (s : List Char) : List Char :=
  s.map fun c => if c = a then b else c

/-- The character filter of `clean_column_names` (ai_service.py line 122):
keep `c` iff `c.isalnum() or c == '_'`, parametric in the `isalnum`
predicate. -/
def keepCharG (alnum : Char → Bool) (c : Char) : Bool := alnum c || c = '_'

/-- ASCII instantiation of the filter of `clean_column_names`. -/
def keepChar : Char → Bool := keepCharG pyIsAlnum

/-- The decimal digit character of `n` (for `n < 10`). -/
def digitChar (n : Nat) : Char := Char.ofNat (48 + n)

/-- Fueled worker for `natDigits`; fuel `n + 1` always suffices since the
argument shrinks by a factor of ten each step. -/
def natDigitsCore : Nat → Nat → List Char → List Char
  | 0, _, acc => acc
  | fuel + 1, n, acc =>
    if n < 10 then digitChar n :: acc
    else natDigitsCore fuel (n / 10) (digitChar (n % 10) :: acc)

/-- The decimal rendering of a natural number, as Python `str(n)` produces
for a non-negative `int`. -/
def natDigits (n : Nat) : List Char := natDigitsCore (n + 1) n []

/-- The literal pattern `"unnamed: "` of ai_service.py line 120. -/
def unnamedPat : List Char := "unnamed: ".toList

/-- The literal replacement `"column_"` of ai_service.py line 120. -/
def columnRep : List Char := "column_".toList

/-- The per-label cleaning pipeline of `clean_column_names`
(ai_service.py lines 119-122): lowercase, strip, replace `"unnamed: "` by
`"column_"`, replace space, colon and hyphen by underscore, then drop every
character that is not alphanumeric or underscore.  Parametric in the
`isalnum` predicate of the filter and in the string-level lowercasing
function. -/
def cleanOneG (alnum : Char → Bool) (lowerStr : List Char → List Char)
    (s : List Char) : List Char :=
  List.filter (keepCharG alnum)
    (pyReplaceChar '-' '_'
      (pyReplaceChar ':' '_'
        (pyReplaceChar ' ' '_'
          (pyReplace unnamedPat columnRep (pyStrip (lowerStr s))))))

/-- ASCII instantiation of the cleaning pipeline. -/
def cleanOne (s : List Char) : List Char := cleanOneG pyIsAlnum pyLower s

/-- The candidate names tried by the collision loop of `clean_column_names`
(ai_service.py lines 123-127): the cleaned base name itself, then
`base_1`, `base_2`, .... -/
def candName (base : List Char) : Nat → List Char
  | 0 => base
  | k + 1 => base ++ '_' :: natDigits (k + 1)

/-- Fueled worker for `freshName`: return the first candidate, starting at
index `k`, that is not already in `cleaned`.  Fuel `cleaned.length + 1`
always suffices because the candidates are pairwise distinct, so at most
`cleaned.length` of them can be members of `cleaned`. -/
def freshNameGo (cleaned : List (List Char)) (base : List Char) : Nat → Nat → List Char
  | 0, k => candName base k
  | fuel + 1, k =>
    if candName base k ∈ cleaned then freshNameGo cleaned base fuel (k + 1)
    else candName base k

/-- The collision-resolution loop of `clean_column_names` (ai_service.py
lines 123-127): starting from the cleaned base name, append `_1`, `_2`, ...
until the name is not among the already-produced ones. -/
def freshName (cleaned : List (List Char)) (base : List Char) : List Char :=
  freshNameGo cleaned base (cleaned.length + 1) 0

/-- A column label as received by `clean_column_names`: either a Python
string, or any non-string value (all non-strings are treated alike by the
code: they are replaced by the placeholder `column_<index>`). -/
inductive PyLabel where
  | str (s : List Char)
  | nonstr

/-- The accumulator loop of `clean_column_names` (ai_service.py lines
115-128), parametric in the character classes: `cleaned` is the list of
names already produced; a non-string label is first replaced by
`column_<len(cleaned)>`; the label is cleaned and then made unique against
`cleaned`. -/
def cleanLoopAuxG (alnum : Char → Bool) (lowerStr : List Char → List Char) :
    List PyLabel → List (List Char) → List (List Char)
  | [], cleaned => cleaned
  | PyLabel.str s :: rest, cleaned =>
    cleanLoopAuxG alnum lowerStr rest
      (cleaned ++ [freshName cleaned (cleanOneG alnum lowerStr s)])
  | PyLabel.nonstr :: rest, cleaned =>
    cleanLoopAuxG alnum lowerStr rest
      (cleaned ++
        [freshName cleaned (cleanOneG alnum lowerStr (columnRep ++ natDigits cleaned.length))])

/-- ASCII instantiation of the accumulator loop. -/
def cleanLoopAux (columns : List PyLabel) (cleaned : List (List Char)) : List (List Char) :=
  cleanLoopAuxG pyIsAlnum pyLower columns cleaned

/-- Embedding of `clean_column_names` (ai_service.py lines 113-129),
parametric in the character classes. -/
def clean_column_namesG (alnum : Char → Bool) (lowerStr : List Char → List Char)
    (columns : List PyLabel) : List (List Char) :=
  cleanLoopAuxG alnum lowerStr columns []

/-- ASCII instantiation of `clean_column_names`, used for evaluation on
ASCII inputs. -/
def clean_column_names (columns : List PyLabel) : List (List Char) :=
  cleanLoopAux columns []

/-- Lowercase alphanumeric or underscore: the character set the spec requires
of normalized identifiers. -/
def isSafeChar (c : Char) : Bool := pyIsLower c || pyIsDigit c || c = '_'

/-- The dtype tag of integer columns checked by `create_table` (database.py line 26). -/
def int64Tag : List Char := "int64".toList

/-- The dtype tag of decimal columns checked by `create_table` (database.py line 26). -/
def float64Tag : List Char := "float64".toList

/-- The dtype tag of timestamp columns checked by `create_table` (database.py line 28). -/
def datetimeTag : List Char := "datetime64[ns]".toList

/-- The storage type literal for numeric columns (database.py line 27). -/
def numericType : List Char := "NUMERIC".toList

/-- The storage type literal for timestamp columns (database.py line 29). -/
def timestampType : List Char := "TIMESTAMP".toList

/-- The storage type literal for all other columns (database.py line 31). -/
def textType : List Char := "TEXT".toList

/-- The dtype-to-storage-type mapping of `create_table` (database.py lines
26-31): `int64` and `float64` map to NUMERIC, `datetime64[ns]` maps to
TIMESTAMP, everything else maps to TEXT. -/
def colTypeOf (dtype : List Char) : List Char :=
  if dtype = int64Tag ∨ dtype = float64Tag then numericType
  else if dtype = datetimeTag then timestampType
  else textType

/-- One entry of `column_definitions` (database.py line 32): `f"{col} {col_type}"`. -/
def columnDef (col dtype : List Char) : List Char := col ++ ' ' :: colTypeOf dtype

/-- The `column_definitions` list of `create_table` (database.py lines 24-32),
built over `zip(columns, dtypes)`, which truncates to the shorter list. -/
def column_definitions (columns dtypes : List (List Char)) : List (List Char) :=
  (columns.zip dtypes).map fun p => columnDef p.1 p.2

/-- The fixed first column definition of the CREATE TABLE statement
(database.py line 37). -/
def idColumnDef : List Char := "id SERIAL PRIMARY KEY".toList

/-- The fixed second column definition of the CREATE TABLE statement
(database.py line 38). -/
def createdAtColumnDef : List Char := "created_at TIMESTAMP DEFAULT CURRENT_TIMESTAMP".toList

/-- The ordered column definitions of the CREATE TABLE statement built by
`create_table` (database.py lines 34-41): the synthetic auto-incrementing
primary key, the creation-timestamp column, then one definition per source
column in source order. -/
def create_table_columns (columns dtypes : List (List Char)) : List (List Char) :=
  idColumnDef :: createdAtColumnDef :: column_definitions columns dtypes

/-- The table-name sanitization of `save_to_postgres` (database.py line 56):
keep only alphanumeric and underscore characters, then lowercase the
result.  Parametric in the `isalnum` predicate and the string-level
lowercasing function. -/
def sanitizeTableNameG (alnum : Char → Bool) (lowerStr : List Char → List Char)
    (t : List Char) : List Char :=
  lowerStr (t.filter fun c => alnum c || c = '_')

/-- ASCII instantiation of the table-name sanitization. -/
def sanitizeTableName (t : List Char) : List Char :=
  sanitizeTableNameG pyIsAlnum pyLower t

/-- Python `str.isalnum()` on a whole string: non-empty and every character
alphanumeric, parametric in the per-character predicate. -/
def pyStrIsAlnumG (alnum : Char → Bool) (t : List Char) : Bool :=
  !t.isEmpty && t.all alnum

/-- ASCII instantiation of whole-string `isalnum`. -/
def pyStrIsAlnum (t : List Char) : Bool := pyStrIsAlnumG pyIsAlnum t

/-- Membership in `string.ascii_letters + string.digits + '_'`, the allow
list of `fetch_from_postgres` (database.py line 102). -/
def fetchAllowedChar (c : Char) : Bool :=
  pyIsUpper c || pyIsLower c || pyIsDigit c || c = '_'

/-- The table-name validation of `fetch_from_postgres` (database.py lines
101-103): the name is rejected (`none`, a raised ValueError in the source)
when it is neither all-alphanumeric nor composed only of ASCII letters,
digits and underscore; otherwise it is used unchanged (`some`).  Parametric
in the `isalnum` predicate of the first test; the second test's allow list
is the literal ASCII string of the source and needs no parameter. -/
def fetchTableNameG (alnum : Char → Bool) (t : List Char) : Option (List Char) :=
  if !pyStrIsAlnumG alnum t && !(t.all fetchAllowedChar) then none else some t

/-- ASCII instantiation of the fetch-path validation. -/
def fetchTableName (t : List Char) : Option (List Char) := fetchTableNameG pyIsAlnum t

/-- The literal head of the SELECT statement of `fetch_from_postgres`
(database.py line 104). -/
def selectFromPre : List Char := "SELECT * FROM ".toList

/-- The SELECT statement text built by `fetch_from_postgres` (database.py
line 104), when validation passes: the table name is embedded verbatim. -/
def fetchQuery (t : List Char) : Option (List Char) :=
  (fetchTableName t).map fun n => selectFromPre ++ n ++ [';']

/-- A pandas timestamp value of a `datetime64[ns]` column, split into the
calendar and clock fields consumed by `strftime`, plus the sub-second
nanosecond component. -/
structure PyTimestamp where
  year : Nat
  month : Nat
  day : Nat
  hour : Nat
  minute : Nat
  second : Nat
  nanosecond : Nat

/-- A cell value of the in-memory table: missing, text, numeric or timestamp. -/
inductive PyValue where
  | vnull
  | vstr (s : List Char)
  | vnum (q : Int)
  | vts (t : PyTimestamp)

/-- The in-memory table handed to `save_to_postgres`: ordered column names,
their parallel dtype tags, and the data rows. -/
structure PyDataFrame where
  cols : List (List Char)
  dtypes : List (List Char)
  rows : List (List PyValue)

/-- `df.fillna('')` on one cell (database.py line 53): a missing value is
replaced by the empty string. -/
def fillna (v : PyValue) : PyValue :=
  match v with
  | PyValue.vnull => PyValue.vstr []
  | v => v

/-- Zero-pad the decimal rendering of `n` on the left to width `w`. -/
def padZeros (w n : Nat) : List Char :=
  List.replicate (w - (natDigits n).length) '0' ++ natDigits n

/-- The `'%Y-%m-%d %H:%M:%S'` formatting that `save_to_postgres` applies to
datetime columns (database.py line 71).  The format string has no sub-second
directive, so the nanosecond field does not appear in the output. -/
def strftimeYmdHms (t : PyTimestamp) : List Char :=
  padZeros 4 t.year ++ '-' :: padZeros 2 t.month ++ '-' :: padZeros 2 t.day ++
    ' ' :: padZeros 2 t.hour ++ ':' :: padZeros 2 t.minute ++ ':' :: padZeros 2 t.second

/-- `.dt.strftime('%Y-%m-%d %H:%M:%S')` on one cell (database.py line 71). -/
def fmtDatetimeVal : PyValue → PyValue
  | PyValue.vts t => PyValue.vstr (strftimeYmdHms t)
  | v => v

/-- The datetime-conversion loop of `save_to_postgres` (database.py lines
68-71) applied to one row: a cell is reformatted iff its column's dtype tag
is `'datetime64[ns]'`. -/
def formatDatetimeRow (dtypes : List (List Char)) (row : List PyValue) : List PyValue :=
  (dtypes.zip row).map fun p => if p.1 = datetimeTag then fmtDatetimeVal p.2 else p.2

/-- Python `', '.join(xs)` as used for the INSERT column list (database.py
line 75). -/
def commaJoin : List (List Char) → List Char
  | [] => []
  | [x] => x
  | x :: y :: rest => x ++ ',' :: ' ' :: commaJoin (y :: rest)

/-- The f-string text of the INSERT statement before the table name
(database.py lines 74-75). -/
def insertPre : List Char := "\n            INSERT INTO ".toList

/-- The f-string text between the table name and the column list. -/
def insertMid : List Char := " (".toList

/-- The f-string text after the column list (database.py lines 75-77). -/
def insertPost : List Char := ")\n            VALUES %s;\n        ".toList

/-- The INSERT statement text of `save_to_postgres` (database.py lines
74-77): the sanitized table name and the verbatim comma-joined column names
interpolated into the f-string. -/
def insertQueryFor (tname : List Char) (columns : List (List Char)) : List Char :=
  insertPre ++ tname ++ insertMid ++ commaJoin columns ++ insertPost

/-- Everything `save_to_postgres` (database.py lines 48-82) constructs and
hands to the database driver: the sanitized table name, the ordered column
definitions of the CREATE TABLE statement, the INSERT statement text, and
the rows passed to `execute_values` (missing values blanked, datetime
columns formatted).  Connection handling, statement execution and commit are
external I/O and are not modelled; the dtype tags are taken from the frame. -/
structure SaveStatements where
  table : List Char
  createColumns : List (List Char)
  insertQuery : List Char
  values : List (List PyValue)

/-- Embedding of the statement-building part of `save_to_postgres`
(database.py lines 48-82). -/
def save_to_postgres (df : PyDataFrame) (table_name : List Char) : SaveStatements :=
  let tname := sanitizeTableName table_name
  { table := tname
  , createColumns := create_table_columns df.cols df.dtypes
  , insertQuery := insertQueryFor tname df.cols
  , values := (df.rows.map (List.map fillna)).map (formatDatetimeRow df.dtypes) }

/-- The first label of the spec's normalizer example. -/
def unnamedZeroLabel : List Char := "Unnamed: 0".toList

/-- The second label of the spec's normalizer example. -/
def revenueParenLabel : List Char := "Revenue ($)".toList

/-- The third label of the spec's normalizer example. -/
def revenueUnderParenLabel : List Char := "revenue_($)".toList

/-- The input of the spec's normalizer example. -/
def exampleLabels : List PyLabel :=
  [PyLabel.str unnamedZeroLabel, PyLabel.str revenueParenLabel,
   PyLabel.str revenueUnderParenLabel]

/-- The identifier `column_0`. -/
def columnZeroStr : List Char := "column_0".toList

/-- The identifier `revenue` that the spec's example expects second. -/
def revenueStr : List Char := "revenue".toList

/-- The identifier `revenue_1` that the spec's example expects third. -/
def revenueOneStr : List Char := "revenue_1".toList

/-- The identifier `revenue_` the code actually produces second. -/
def revenueUnderStr : List Char := "revenue_".toList

/-- The identifier `revenue__1` the code actually produces third. -/
def revenueUnderOneStr : List Char := "revenue__1".toList

/-- A small normalized identifier used as a concrete witness input. -/
def abStr : List Char := "ab".toList

/-- A second normalized identifier used as a concrete witness input. -/
def cOneStr : List Char := "c_1".toList

/-- The pandas dtype tag of plain text columns. -/
def objectTag : List Char := "object".toList

/-- A mixed-case table name accepted by the fetch validation. -/
def capsName : List Char := "MyTable".toList

/-- The column label `id` of the spec's storage example. -/
def idLabel : List Char := "id".toList

/-- The column label `name` of the spec's storage example. -/
def nameLabel : List Char := "name".toList

/-- The column definition `id NUMERIC`. -/
def idNumericDef : List Char := "id NUMERIC".toList

/-- The column definition `name TEXT`. -/
def nameTextDef : List Char := "name TEXT".toList

/-- A text cell of the storage example. -/
def aliceStr : List Char := "alice".toList

/-- A text cell of the storage example. -/
def bobStr : List Char := "bob".toList

/-- The table name of the storage example. -/
def salesTableName : List Char := "sales".toList

/-- The 2-row frame with an integer `id` column and a text `name` column of
the spec's storage example. -/
def exampleFrame : PyDataFrame :=
  { cols := [idLabel, nameLabel]
  , dtypes := [int64Tag, objectTag]
  , rows := [[PyValue.vnum 1, PyValue.vstr aliceStr],
             [PyValue.vnum 2, PyValue.vstr bobStr]] }

/-- A column name containing characters outside alphanumeric+underscore. -/
def badColName : List Char := "bad name!".toList

/-- A frame whose only column name contains illegal characters. -/
def badFrame : PyDataFrame :=
  { cols := [badColName], dtypes := [objectTag], rows := [] }

/-- A timestamp with a non-zero sub-second component. -/
def tsA : PyTimestamp :=
  { year := 2024, month := 1, day := 2, hour := 3, minute := 4, second := 5
  , nanosecond := 123456789 }

/-- The same instant as `tsA` truncated to whole seconds. -/
def tsB : PyTimestamp :=
  { year := 2024, month := 1, day := 2, hour := 3, minute := 4, second := 5
  , nanosecond := 0 }

theorem toNat_ofNat_lt {n : Nat} (h : n < 55296) : (Char.ofNat n).toNat = n := by
  have hv : n.isValidChar := Or.inl h
  simp only [Char.ofNat, dif_pos hv, Char.ofNatAux, Char.toNat, UInt32.toNat]
  simp

theorem digitChar_toNat {m : Nat} (h : m < 10) : (digitChar m).toNat = 48 + m := by
  exact toNat_ofNat_lt (by omega)

theorem pyIsDigit_digitChar {m : Nat} (h : m < 10) : pyIsDigit (digitChar m) = true := by
  simp [pyIsDigit, digitChar_toNat h]
  omega

theorem isSafeChar_digitChar {m : Nat} (h : m < 10) : isSafeChar (digitChar m) = true := by
  simp [isSafeChar, pyIsDigit_digitChar h]

theorem natDigitsCore_append (fuel : Nat) :
    ∀ n acc, natDigitsCore fuel n acc = natDigitsCore fuel n [] ++ acc := by
  induction fuel with
  | zero => intro n acc; rfl
  | succ f ih =>
    intro n acc
    by_cases h : n < 10
    · simp [natDigitsCore, h]
    · simp only [natDigitsCore, if_neg h]
      rw [ih (n / 10) (digitChar (n % 10) :: acc), ih (n / 10) [digitChar (n % 10)]]
      simp

theorem natDigitsCore_fuel (f1 : Nat) :
    ∀ f2 n, n < f1 → n < f2 → natDigitsCore f1 n [] = natDigitsCore f2 n [] := by
  induction f1 with
  | zero => intro f2 n h1 _; omega
  | succ f1 ih =>
    intro f2 n h1 h2
    cases f2 with
    | zero => omega
    | succ f2 =>
      by_cases h : n < 10
      · simp [natDigitsCore, h]
      · simp only [natDigitsCore, if_neg h]
        rw [natDigitsCore_append f1, natDigitsCore_append f2]
        have hd : n / 10 < n := Nat.div_lt_self (by omega) (by omega)
        rw [ih f2 (n / 10) (by omega) (by omega)]

theorem natDigits_unfold (n : Nat) :
    natDigits n = if n < 10 then [digitChar n]
      else natDigits (n / 10) ++ [digitChar (n % 10)] := by
  by_cases h : n < 10
  · simp [natDigits, natDigitsCore, h]
  · have hd : n / 10 < n := Nat.div_lt_self (by omega) (by omega)
    rw [if_neg h]
    have h1 : natDigits n = natDigitsCore n (n / 10) [digitChar (n % 10)] := by
      simp [natDigits, natDigitsCore, if_neg h]
    rw [h1, natDigitsCore_append n, natDigitsCore_fuel n (n / 10 + 1) (n / 10) (by omega) (by omega)]
    rfl

theorem mem_natDigits {n : Nat} {c : Char} (h : c ∈ natDigits n) : pyIsDigit c = true := by
  induction n using Nat.strong_induction_on with
  | _ n ih =>
    rw [natDigits_unfold] at h
    by_cases h10 : n < 10
    · simp [if_pos h10] at h
      subst h
      exact pyIsDigit_digitChar h10
    · simp [if_neg h10] at h
      rcases h with h | h
      · exact ih (n / 10) (Nat.div_lt_self (by omega) (by omega)) h
      · subst h
        exact pyIsDigit_digitChar (Nat.mod_lt _ (by omega))

/-- The numeric value of a digit string, used to invert `natDigits`. -/
def digitsVal (ds : List Char) : Nat := ds.foldl (fun a c => 10 * a + (c.toNat - 48)) 0

theorem digitsVal_natDigits (n : Nat) : digitsVal (natDigits n) = n := by
  induction n using Nat.strong_induction_on with
  | _ n ih =>
    rw [natDigits_unfold]
    by_cases h10 : n < 10
    · simp [if_pos h10, digitsVal, digitChar_toNat h10]
    · simp only [if_neg h10, digitsVal, List.foldl_append]
      have := ih (n / 10) (Nat.div_lt_self (by omega) (by omega))
      simp only [digitsVal] at this
      rw [this]
      simp only [List.foldl]
      rw [digitChar_toNat (Nat.mod_lt _ (by omega))]
      omega

theorem natDigits_inj {a b : Nat} (h : natDigits a = natDigits b) : a = b := by
  have := congrArg digitsVal h
  rwa [digitsVal_natDigits, digitsVal_natDigits] at this

theorem candName_inj {base : List Char} : Function.Injective (candName base) := by
  intro i j h
  cases i with
  | zero =>
    cases j with
    | zero => rfl
    | succ j =>
      exfalso
      have := congrArg List.length h
      simp [candName] at this
  | succ i =>
    cases j with
    | zero =>
      exfalso
      have := congrArg List.length h
      simp [candName] at this
    | succ j =>
      simp only [candName, List.append_cancel_left_eq, List.cons.injEq, true_and] at h
      have := natDigits_inj h
      omega

theorem freshNameGo_isCand (cleaned : List (List Char)) (base : List Char) :
    ∀ fuel k, ∃ j, k ≤ j ∧ freshNameGo cleaned base fuel k = candName base j := by
  intro fuel
  induction fuel with
  | zero => intro k; exact ⟨k, Nat.le_refl k, rfl⟩
  | succ f ih =>
    intro k
    by_cases h : candName base k ∈ cleaned
    · obtain ⟨j, hj1, hj2⟩ := ih (k + 1)
      exact ⟨j, by omega, by simp [freshNameGo, if_pos h, hj2]⟩
    · exact ⟨k, Nat.le_refl k, by simp [freshNameGo, if_neg h]⟩

theorem freshNameGo_not_mem (cleaned : List (List Char)) (base : List Char) :
    ∀ fuel k, (∃ j, k ≤ j ∧ j < k + fuel ∧ candName base j ∉ cleaned) →
      freshNameGo cleaned base fuel k ∉ cleaned := by
  intro fuel
  induction fuel with
  | zero => intro k ⟨j, h1, h2, _⟩; omega
  | succ f ih =>
    intro k ⟨j, h1, h2, h3⟩
    by_cases h : candName base k ∈ cleaned
    · simp only [freshNameGo, if_pos h]
      apply ih (k + 1)
      refine ⟨j, ?_, by omega, h3⟩
      rcases Nat.eq_or_lt_of_le h1 with heq | hlt
      · exact absurd (heq ▸ h) h3
      · omega
    · simpa [freshNameGo, if_neg h] using h

theorem freshName_not_mem (cleaned : List (List Char)) (base : List Char) :
    freshName cleaned base ∉ cleaned := by
  apply freshNameGo_not_mem
  by_contra hall
  push_neg at hall
  have hsub : (Finset.range (cleaned.length + 1)).image (candName base) ⊆ cleaned.toFinset := by
    intro x hx
    simp only [Finset.mem_image, Finset.mem_range] at hx
    obtain ⟨j, hj, rfl⟩ := hx
    exact List.mem_toFinset.2 (hall j (by omega) (by omega))
  have hcard := Finset.card_le_card hsub
  rw [Finset.card_image_of_injective _ candName_inj, Finset.card_range] at hcard
  have := List.toFinset_card_le cleaned
  omega

theorem freshName_eq_of_not_mem {cleaned : List (List Char)} {base : List Char}
    (h : base ∉ cleaned) : freshName cleaned base = base := by
  have h0 : candName base 0 = base := rfl
  simp [freshName, freshNameGo, h0, if_neg h]

theorem mem_natDigits_eq {n : Nat} {c : Char} (h : c ∈ natDigits n) :
    ∃ m : Nat, m < 10 ∧ c = digitChar m := by
  induction n using Nat.strong_induction_on with
  | _ n ih =>
    rw [natDigits_unfold] at h
    by_cases h10 : n < 10
    · simp [if_pos h10] at h
      exact ⟨n, h10, h⟩
    · simp [if_neg h10] at h
      rcases h with h | h
      · exact ih (n / 10) (Nat.div_lt_self (by omega) (by omega)) h
      · exact ⟨n % 10, Nat.mod_lt _ (by omega), h⟩

theorem mem_candName {base : List Char} {k : Nat} {c : Char}
    (h : c ∈ candName base k) :
    c ∈ base ∨ c = '_' ∨ ∃ m : Nat, m < 10 ∧ c = digitChar m := by
  cases k with
  | zero => exact Or.inl h
  | succ k =>
    simp only [candName, List.mem_append, List.mem_cons] at h
    rcases h with h | h | h
    · exact Or.inl h
    · exact Or.inr (Or.inl h)
    · exact Or.inr (Or.inr (mem_natDigits_eq h))

theorem mem_freshName {cleaned : List (List Char)} {base : List Char} {c : Char}
    (h : c ∈ freshName cleaned base) :
    c ∈ base ∨ c = '_' ∨ ∃ m : Nat, m < 10 ∧ c = digitChar m := by
  obtain ⟨j, _, hj⟩ := freshNameGo_isCand cleaned base (cleaned.length + 1) 0
  rw [freshName, hj] at h
  exact mem_candName h

theorem mem_dropPat_of_pat {pat s rest : List Char} (h : dropPat pat s = some rest) :
    ∀ x ∈ pat, x ∈ s := by
  induction pat generalizing s with
  | nil => intro x hx; cases hx
  | cons p ps ih =>
    cases s with
    | nil => cases h
    | cons c cs =>
      simp only [dropPat] at h
      by_cases hc : c = p
      · rw [if_pos hc] at h
        intro x hx
        rcases List.mem_cons.1 hx with rfl | hx
        · exact List.mem_cons.2 (Or.inl hc.symm)
        · exact List.mem_cons.2 (Or.inr (ih h x hx))
      · rw [if_neg hc] at h; cases h

theorem mem_dropPat_sub {pat s rest : List Char} (h : dropPat pat s = some rest) :
    ∀ x ∈ rest, x ∈ s := by
  induction pat generalizing s with
  | nil =>
    simp only [dropPat, Option.some.injEq] at h
    intro x hx; exact h ▸ hx
  | cons p ps ih =>
    cases s with
    | nil => cases h
    | cons c cs =>
      simp only [dropPat] at h
      by_cases hc : c = p
      · rw [if_pos hc] at h
        intro x hx
        exact List.mem_cons.2 (Or.inr (ih h x hx))
      · rw [if_neg hc] at h; cases h

theorem mem_pyReplaceF {pat rep : List Char} :
    ∀ fuel s c, c ∈ pyReplaceF pat rep fuel s → c ∈ rep ∨ c ∈ s := by
  intro fuel
  induction fuel with
  | zero =>
    intro s c h
    rw [pyReplaceF] at h
    exact Or.inr h
  | succ f ih =>
    intro s c h
    cases s with
    | nil => simp [pyReplaceF] at h
    | cons a as =>
      rw [pyReplaceF] at h
      cases hdp : dropPat pat (a :: as) with
      | some rest =>
        rw [hdp] at h
        simp only [List.mem_append] at h
        rcases h with h | h
        · exact Or.inl h
        · rcases ih rest c h with h2 | h2
          · exact Or.inl h2
          · exact Or.inr (mem_dropPat_sub hdp c h2)
      | none =>
        rw [hdp] at h
        rcases List.mem_cons.1 h with rfl | h2
        · exact Or.inr (List.mem_cons.2 (Or.inl rfl))
        · rcases ih as c h2 with h3 | h3
          · exact Or.inl h3
          · exact Or.inr (List.mem_cons.2 (Or.inr h3))

theorem mem_pyStrip {s : List Char} {c : Char} (h : c ∈ pyStrip s) : c ∈ s := by
  have haux : ∀ (l : List Char), c ∈ l.dropWhile pyIsSpace → c ∈ l := by
    intro l
    induction l with
    | nil => exact fun h => h
    | cons a as ih =>
      rw [List.dropWhile_cons]
      by_cases hp : pyIsSpace a = true
      · rw [if_pos hp]
        exact fun hm => List.mem_cons.2 (Or.inr (ih hm))
      · rw [if_neg hp]
        exact fun hm => hm
  rw [pyStrip, List.mem_reverse] at h
  have := haux _ h
  rw [List.mem_reverse] at this
  exact haux _ this

theorem notUpper_pyLowerChar (c : Char) : pyIsUpper (pyLowerChar c) = false := by
  rw [pyLowerChar]
  by_cases h : pyIsUpper c = true
  · rw [if_pos h]
    simp only [pyIsUpper, Bool.and_eq_true, decide_eq_true_eq] at h
    have : (Char.ofNat (c.toNat + 32)).toNat = c.toNat + 32 := toNat_ofNat_lt (by omega)
    simp [pyIsUpper, this]
    omega
  · rw [if_neg h]
    simpa using h

theorem mem_pyReplaceChar {a b c : Char} {s : List Char}
    (h : c ∈ pyReplaceChar a b s) : c = b ∨ c ∈ s := by
  rw [pyReplaceChar, List.mem_map] at h
  obtain ⟨x, hx, rfl⟩ := h
  by_cases hxa : x = a
  · rw [if_pos hxa]; exact Or.inl rfl
  · rw [if_neg hxa]; exact Or.inr hx

theorem pyLower_notUpper : ∀ (s : List Char), ∀ c ∈ pyLower s, pyIsUpper c = false := by
  intro s c hc
  rw [pyLower, List.mem_map] at hc
  obtain ⟨x, _, rfl⟩ := hc
  exact notUpper_pyLowerChar x

theorem pyIsAlnum_digitChar {m : Nat} (h : m < 10) : pyIsAlnum (digitChar m) = true := by
  simp [pyIsAlnum, pyIsDigit_digitChar h]

theorem pyIsUpper_digitChar {m : Nat} (h : m < 10) : pyIsUpper (digitChar m) = false := by
  rw [Bool.eq_false_iff]
  intro hu
  simp only [pyIsUpper, Bool.and_eq_true, decide_eq_true_eq, digitChar_toNat h] at hu
  omega

theorem cleanOneG_chars {alnum : Char → Bool} {lowerStr : List Char → List Char}
    (hlower : ∀ (s : List Char), ∀ c ∈ lowerStr s, pyIsUpper c = false)
    {s : List Char} {c : Char} (h : c ∈ cleanOneG alnum lowerStr s) :
    (alnum c || c = '_') = true ∧ pyIsUpper c = false := by
  rw [cleanOneG] at h
  have hkeep := (List.mem_filter.1 h).2
  have hmem := (List.mem_filter.1 h).1
  refine ⟨hkeep, ?_⟩
  rcases mem_pyReplaceChar hmem with rfl | h1
  · decide
  rcases mem_pyReplaceChar h1 with rfl | h2
  · decide
  rcases mem_pyReplaceChar h2 with rfl | h3
  · decide
  rcases mem_pyReplaceF _ _ c h3 with hrep | hsrc
  · revert hrep
    have hcol : ∀ x ∈ columnRep, pyIsUpper x = false := by decide
    exact hcol c
  · exact hlower s c (mem_pyStrip hsrc)

theorem cleanLoopAuxG_length (alnum : Char → Bool) (lowerStr : List Char → List Char) :
    ∀ (cols : List PyLabel) (acc : List (List Char)),
    (cleanLoopAuxG alnum lowerStr cols acc).length = acc.length + cols.length := by
  intro cols
  induction cols with
  | nil => intro acc; simp [cleanLoopAuxG]
  | cons col rest ih =>
    intro acc
    cases col with
    | str s =>
      rw [cleanLoopAuxG, ih]
      simp
      omega
    | nonstr =>
      rw [cleanLoopAuxG, ih]
      simp
      omega

theorem cleanLoopAux_length (cols : List PyLabel) (acc : List (List Char)) :
    (cleanLoopAux cols acc).length = acc.length + cols.length :=
  cleanLoopAuxG_length pyIsAlnum pyLower cols acc

theorem cleanLoopAuxG_nodup (alnum : Char → Bool) (lowerStr : List Char → List Char) :
    ∀ (cols : List PyLabel) (acc : List (List Char)),
    acc.Nodup → (cleanLoopAuxG alnum lowerStr cols acc).Nodup := by
  intro cols
  induction cols with
  | nil => intro acc h; exact h
  | cons col rest ih =>
    intro acc h
    have hstep : ∀ base : List Char, (acc ++ [freshName acc base]).Nodup := by
      intro base
      rw [List.nodup_append]
      refine ⟨h, List.nodup_singleton _, ?_⟩
      intro a ha hmem
      rw [List.mem_singleton] at hmem
      subst hmem
      exact freshName_not_mem acc _ ha
    cases col with
    | str s => rw [cleanLoopAuxG]; exact ih _ (hstep _)
    | nonstr => rw [cleanLoopAuxG]; exact ih _ (hstep _)

theorem cleanLoopAux_nodup (cols : List PyLabel) (acc : List (List Char))
    (h : acc.Nodup) : (cleanLoopAux cols acc).Nodup :=
  cleanLoopAuxG_nodup pyIsAlnum pyLower cols acc h

theorem cleanLoopAuxG_chars {alnum : Char → Bool} {lowerStr : List Char → List Char}
    (hdig : ∀ m : Nat, m < 10 → alnum (digitChar m) = true)
    (hlower : ∀ (s : List Char), ∀ c ∈ lowerStr s, pyIsUpper c = false) :
    ∀ (cols : List PyLabel) (acc : List (List Char)),
    (∀ s ∈ acc, ∀ c ∈ s, (alnum c || c = '_') = true ∧ pyIsUpper c = false) →
    ∀ s ∈ cleanLoopAuxG alnum lowerStr cols acc, ∀ c ∈ s,
      (alnum c || c = '_') = true ∧ pyIsUpper c = false := by
  intro cols
  induction cols with
  | nil => intro acc h; exact h
  | cons col rest ih =>
    intro acc h
    have hstep : ∀ base : List Char,
        ∀ s ∈ acc ++ [freshName acc (cleanOneG alnum lowerStr base)], ∀ c ∈ s,
          (alnum c || c = '_') = true ∧ pyIsUpper c = false := by
      intro base s hs c hc
      rw [List.mem_append, List.mem_singleton] at hs
      rcases hs with hs | rfl
      · exact h s hs c hc
      · rcases mem_freshName hc with hbase | rfl | hdigit
        · exact cleanOneG_chars hlower hbase
        · exact ⟨by simp, by decide⟩
        · obtain ⟨m, hm, rfl⟩ := hdigit
          exact ⟨by simp [hdig m hm], pyIsUpper_digitChar hm⟩
    cases col with
    | str s => rw [cleanLoopAuxG]; exact ih _ (hstep _)
    | nonstr => rw [cleanLoopAuxG]; exact ih _ (hstep _)

theorem isSafeChar_toNat {c : Char} (h : isSafeChar c = true) :
    (97 ≤ c.toNat ∧ c.toNat ≤ 122) ∨ (48 ≤ c.toNat ∧ c.toNat ≤ 57) ∨ c.toNat = 95 := by
  simp only [isSafeChar, pyIsLower, pyIsDigit, Bool.or_eq_true, Bool.and_eq_true,
    decide_eq_true_eq] at h
  rcases h with (h | h) | rfl
  · exact Or.inl h
  · exact Or.inr (Or.inl h)
  · exact Or.inr (Or.inr rfl)

theorem pyLowerChar_eq_self {c : Char} (h : isSafeChar c = true) : pyLowerChar c = c := by
  rw [pyLowerChar, if_neg]
  intro hup
  simp only [pyIsUpper, Bool.and_eq_true, decide_eq_true_eq] at hup
  rcases isSafeChar_toNat h with h1 | h1 | h1 <;> omega

theorem pyIsSpace_eq_false {c : Char} (h : isSafeChar c = true) : pyIsSpace c = false := by
  have ht := isSafeChar_toNat h
  rw [Bool.eq_false_iff]
  intro hsp
  simp only [pyIsSpace, Bool.or_eq_true, Bool.and_eq_true, decide_eq_true_eq] at hsp
  rcases ht with h1 | h1 | h1 <;> omega

theorem pyLower_eq_self {s : List Char} (h : ∀ c ∈ s, isSafeChar c = true) :
    pyLower s = s := by
  induction s with
  | nil => rfl
  | cons a as ih =>
    rw [pyLower, List.map_cons]
    rw [pyLowerChar_eq_self (h a (List.mem_cons_self a as))]
    have := ih fun c hc => h c (List.mem_cons_of_mem a hc)
    rw [pyLower] at this
    rw [this]

theorem dropWhile_eq_self_of {p : Char → Bool} {l : List Char}
    (h : ∀ c ∈ l, p c = false) : l.dropWhile p = l := by
  cases l with
  | nil => rfl
  | cons a as =>
    rw [List.dropWhile_cons, if_neg]
    rw [h a (List.mem_cons_self a as)]
    simp

theorem pyStrip_eq_self {s : List Char} (h : ∀ c ∈ s, isSafeChar c = true) :
    pyStrip s = s := by
  rw [pyStrip]
  rw [dropWhile_eq_self_of fun c hc => pyIsSpace_eq_false (h c hc)]
  rw [dropWhile_eq_self_of fun c hc => pyIsSpace_eq_false (h c (List.mem_reverse.1 hc))]
  exact List.reverse_reverse s

theorem pyReplaceF_eq_self {pat rep s : List Char} {x : Char} (hx : x ∈ pat)
    (h : ∀ c ∈ s, c ≠ x) : ∀ fuel, pyReplaceF pat rep fuel s = s := by
  intro fuel
  induction fuel generalizing s with
  | zero => rw [pyReplaceF]
  | succ f ih =>
    cases s with
    | nil => rw [pyReplaceF]
    | cons a as =>
      rw [pyReplaceF]
      cases hdp : dropPat pat (a :: as) with
      | some rest =>
        exact absurd rfl (h x (mem_dropPat_of_pat hdp x hx))
      | none =>
        rw [ih fun c hc => h c (List.mem_cons_of_mem a hc)]

theorem pyReplaceChar_eq_self {a b : Char} {s : List Char}
    (h : ∀ c ∈ s, c ≠ a) : pyReplaceChar a b s = s := by
  induction s with
  | nil => rfl
  | cons x xs ih =>
    rw [pyReplaceChar, List.map_cons, if_neg (h x (List.mem_cons_self x xs))]
    have := ih fun c hc => h c (List.mem_cons_of_mem x hc)
    rw [pyReplaceChar] at this
    rw [this]

theorem isSafeChar_ne {c d : Char} (h : isSafeChar c = true)
    (hd : isSafeChar d = false) : c ≠ d := by
  intro heq
  rw [heq, hd] at h
  cases h

theorem cleanOne_eq_self {s : List Char} (h : ∀ c ∈ s, isSafeChar c = true) :
    cleanOne s = s := by
  rw [cleanOne, cleanOneG, pyLower_eq_self h, pyStrip_eq_self h, pyReplace]
  rw [pyReplaceF_eq_self (show ':' ∈ unnamedPat by decide)
    (fun c hc => isSafeChar_ne (h c hc) (by decide)) s.length]
  rw [pyReplaceChar_eq_self fun c hc => isSafeChar_ne (h c hc) (by decide)]
  rw [pyReplaceChar_eq_self fun c hc => isSafeChar_ne (h c hc) (by decide)]
  rw [pyReplaceChar_eq_self fun c hc => isSafeChar_ne (h c hc) (by decide)]
  rw [List.filter_eq_self.2]
  intro a ha
  have hsafe := h a ha
  simp only [keepCharG, pyIsAlnum, isSafeChar, Bool.or_eq_true,
    decide_eq_true_eq] at hsafe ⊢
  rcases hsafe with (h1 | h1) | h1
  · exact Or.inl (Or.inr h1)
  · exact Or.inl (Or.inl (Or.inl h1))
  · exact Or.inr h1

theorem cleanLoopAux_normalized : ∀ (cols : List (List Char)) (acc : List (List Char)),
    (∀ s ∈ cols, ∀ c ∈ s, isSafeChar c = true) → (acc ++ cols).Nodup →
    cleanLoopAux (cols.map PyLabel.str) acc = acc ++ cols := by
  intro cols
  induction cols with
  | nil => intro acc _ _; simp [cleanLoopAux, cleanLoopAuxG]
  | cons s rest ih =>
    intro acc hchars hnodup
    rw [List.map_cons, cleanLoopAux, cleanLoopAuxG]
    have hclean : cleanOneG pyIsAlnum pyLower s = s :=
      cleanOne_eq_self (hchars s (List.mem_cons_self s rest))
    have hnotmem : s ∉ acc := by
      intro hmem
      rw [List.nodup_append] at hnodup
      exact hnodup.2.2 hmem (List.mem_cons_self s rest)
    rw [hclean, freshName_eq_of_not_mem hnotmem]
    have heq : (acc ++ [s]) ++ rest = acc ++ s :: rest := by simp
    have hrec : cleanLoopAuxG pyIsAlnum pyLower (rest.map PyLabel.str) (acc ++ [s]) =
        (acc ++ [s]) ++ rest :=
      ih (acc ++ [s]) (fun t ht c hc => hchars t (List.mem_cons_of_mem s ht) c hc)
        (by rw [heq]; exact hnodup)
    rw [hrec, heq]

theorem zipGetElem {α β : Type} (l1 : List α) :
    ∀ (l2 : List β) (i : Nat) (a : α) (b : β), l1[i]? = some a → l2[i]? = some b →
      (l1.zip l2)[i]? = some (a, b) := by
  induction l1 with
  | nil => intro l2 i a b h1 _; simp at h1
  | cons x xs ih =>
    intro l2 i a b h1 h2
    cases l2 with
    | nil => simp at h2
    | cons y ys =>
      cases i with
      | zero =>
        simp at h1 h2
        simp [List.zip_cons_cons, h1, h2]
      | succ i =>
        simp at h1 h2
        simpa [List.zip_cons_cons] using ih ys i a b h1 h2

theorem mem_commaJoin {cols : List (List Char)} {col : List Char}
    (hcol : col ∈ cols) {c : Char} (hc : c ∈ col) : c ∈ commaJoin cols := by
  induction cols with
  | nil => cases hcol
  | cons x rest ih =>
    cases rest with
    | nil =>
      rw [List.mem_singleton] at hcol
      subst hcol
      simpa [commaJoin] using hc
    | cons y ys =>
      rw [commaJoin]
      rcases List.mem_cons.1 hcol with rfl | hmem
      · exact List.mem_append.2 (Or.inl hc)
      · refine List.mem_append.2 (Or.inr ?_)
        exact List.mem_cons.2 (Or.inr (List.mem_cons.2 (Or.inr (ih hmem))))

/-- C1: for every input list of column labels, `clean_column_names` returns
a list of the same length as the input, and the returned list contains no
duplicate entries. -/
theorem c1_normalizer_length_nodup (columns : List PyLabel) :
    (clean_column_names columns).length = columns.length ∧
    (clean_column_names columns).Nodup := by
  constructor
  · rw [clean_column_names, cleanLoopAux_length]
    simp
  · exact cleanLoopAux_nodup columns [] List.nodup_nil

/-- C1 witness: the guarantee evaluated on a concrete three-label input. -/
theorem c1_normalizer_length_nodup_witness :
    (clean_column_names exampleLabels).length = exampleLabels.length ∧
    (clean_column_names exampleLabels).Nodup :=
  c1_normalizer_length_nodup exampleLabels

/-- C2 counterexample: on the input consisting of the single empty label,
the normalizer returns the empty identifier, so not every output of
`clean_column_names` is non-empty. -/
theorem c2_empty_output_counterexample :
    ¬ (∀ s ∈ clean_column_names [PyLabel.str []], s ≠ []) := by
  intro h
  exact h [] (by decide) rfl

/-- C2 amended: for every isalnum predicate and lowercasing function the
normalizer may be built on — CPython's Unicode-aware ones in particular,
which accept the decimal digits, never lowercase to an ASCII uppercase
letter and agree with the ASCII classes below code point 128 — every
character of every returned identifier passes the filter's
isalnum-or-underscore test, and every ASCII character of every identifier
is a lowercase letter, a digit or an underscore.  Identifiers may however
be empty (an all-stripped label cleans to the empty identifier), and
non-ASCII alphanumerics such as accented or Korean letters survive the
filter, so the claim's non-emptiness and its {a-z, 0-9, _} charset both
fail as stated. -/
theorem c2_amended_charset (alnum : Char → Bool) (lowerStr : List Char → List Char)
    (hdig : ∀ m : Nat, m < 10 → alnum (digitChar m) = true)
    (hlower : ∀ (s : List Char), ∀ c ∈ lowerStr s, pyIsUpper c = false)
    (hascii : ∀ c : Char, c.toNat < 128 → alnum c = pyIsAlnum c)
    (columns : List PyLabel) :
    ∀ s ∈ clean_column_namesG alnum lowerStr columns, ∀ c ∈ s,
      (alnum c || c = '_') = true ∧ (c.toNat < 128 → isSafeChar c = true) := by
  intro s hs c hc
  have hbase := cleanLoopAuxG_chars hdig hlower columns [] (by intro s hs; cases hs) s hs c hc
  refine ⟨hbase.1, ?_⟩
  intro h128
  have hnu := hbase.2
  have h1 := hbase.1
  simp only [Bool.or_eq_true, decide_eq_true_eq] at h1
  rcases h1 with ha | rfl
  · rw [hascii c h128] at ha
    simp only [pyIsAlnum, Bool.or_eq_true] at ha
    rcases ha with (hd | hu) | hl
    · simp [isSafeChar, hd]
    · rw [hnu] at hu; cases hu
    · simp [isSafeChar, hl]
  · decide

/-- C2 witness: the amended guarantee instantiated with the ASCII character
classes and evaluated on one character of one output of a concrete input. -/
theorem c2_amended_charset_witness :
    (pyIsAlnum 'a' || 'a' = '_') = true ∧ ('a'.toNat < 128 → isSafeChar 'a' = true) :=
  c2_amended_charset pyIsAlnum pyLower (fun _ hm => pyIsAlnum_digitChar hm)
    pyLower_notUpper (fun _ _ => rfl) [PyLabel.str abStr] abStr (by decide) 'a' (by decide)

/-- C3 counterexample: on the spec's example input the normalizer does not
return the output the spec claims: the second label keeps its trailing
underscore (`revenue_`), so the collision suffix yields `revenue__1`, not
`revenue_1`. -/
theorem c3_example_counterexample :
    clean_column_names exampleLabels ≠ [columnZeroStr, revenueStr, revenueOneStr] := by
  decide

/-- C3 amended: the normalizer maps the example input to
`["column_0", "revenue_", "revenue__1"]`: stripping `($)` keeps the
underscore already introduced for the space, and the collision suffix `_1`
is appended to that base. -/
theorem c3_example_actual :
    clean_column_names exampleLabels = [columnZeroStr, revenueUnderStr, revenueUnderOneStr] := by
  decide

/-- C4: normalizing an already-normalized list of identifiers (each
non-empty, over lowercase alphanumerics and underscore) with no duplicates
returns it unchanged. -/
theorem c4_idempotent (cols : List (List Char))
    (hnorm : ∀ s ∈ cols, s ≠ [] ∧ ∀ c ∈ s, isSafeChar c = true)
    (hnodup : cols.Nodup) :
    clean_column_names (cols.map PyLabel.str) = cols := by
  rw [clean_column_names]
  have h := cleanLoopAux_normalized cols [] (fun s hs => (hnorm s hs).2) (by simpa using hnodup)
  simpa using h

/-- C4 witness: idempotence evaluated on a concrete normalized pair. -/
theorem c4_idempotent_witness :
    clean_column_names ([abStr, cOneStr].map PyLabel.str) = [abStr, cOneStr] :=
  c4_idempotent [abStr, cOneStr] (by decide) (by decide)

/-- C5: the storage type assigned by `create_table` is always one of
NUMERIC, TIMESTAMP and TEXT; the tags `int64` and `float64` map to NUMERIC,
the tag `datetime64[ns]` maps to TIMESTAMP, and every other tag, including
unknown ones, maps to TEXT. -/
theorem c5_storage_type_mapping :
    colTypeOf int64Tag = numericType ∧
    colTypeOf float64Tag = numericType ∧
    colTypeOf datetimeTag = timestampType ∧
    (∀ d : List Char,
      colTypeOf d = numericType ∨ colTypeOf d = timestampType ∨ colTypeOf d = textType) ∧
    (∀ d : List Char, d ≠ int64Tag → d ≠ float64Tag → d ≠ datetimeTag →
      colTypeOf d = textType) := by
  refine ⟨by decide, by decide, by decide, ?_, ?_⟩
  · intro d
    rw [colTypeOf]
    by_cases h1 : d = int64Tag ∨ d = float64Tag
    · rw [if_pos h1]; exact Or.inl rfl
    · rw [if_neg h1]
      by_cases h2 : d = datetimeTag
      · rw [if_pos h2]; exact Or.inr (Or.inl rfl)
      · rw [if_neg h2]; exact Or.inr (Or.inr rfl)
  · intro d h1 h2 h3
    rw [colTypeOf, if_neg (by tauto), if_neg h3]

/-- C5 witness: the mapping evaluated at the unrecognized tag `object`. -/
theorem c5_storage_type_mapping_witness : colTypeOf objectTag = textType :=
  c5_storage_type_mapping.2.2.2.2 objectTag (by decide) (by decide) (by decide)

/-- C6 counterexample: `fetch_from_postgres` accepts the table name
`MyTable` and embeds it unchanged in the SELECT statement, although its
sanitized (lowercased) form differs — the fetch path neither strips nor
lowercases the name before use. -/
theorem c6_fetch_not_sanitized_counterexample :
    fetchTableName capsName = some capsName ∧ sanitizeTableName capsName ≠ capsName := by
  exact ⟨by decide, by decide⟩

/-- C6 amended: `save_to_postgres` sanitizes the table name before use: it
keeps exactly the characters passing the isalnum-or-underscore test
(CPython: Unicode-aware isalnum) and lowercases the result.
`fetch_from_postgres` does not sanitize: a name passing its validation is
embedded exactly as given — no lowercasing, no stripping — and validation
accepts precisely the names that are wholly alphanumeric or that consist
only of ASCII letters, digits and underscores; rejected names never reach
a statement.  Stated for every isalnum predicate and lowercasing function,
CPython's own in particular. -/
theorem c6_table_name_handling (alnum : Char → Bool) (lowerStr : List Char → List Char)
    (t : List Char) :
    (∀ df : PyDataFrame,
      (save_to_postgres df t).table = sanitizeTableNameG pyIsAlnum pyLower t) ∧
    (sanitizeTableNameG alnum lowerStr t =
      lowerStr (t.filter fun c => alnum c || c = '_')) ∧
    (∀ c ∈ t.filter (fun c => alnum c || c = '_'), (alnum c || c = '_') = true) ∧
    (∀ n, fetchTableNameG alnum t = some n → n = t) ∧
    (fetchTableNameG alnum t = some t ↔
      (pyStrIsAlnumG alnum t = true ∨ t.all fetchAllowedChar = true)) := by
  refine ⟨fun df => rfl, rfl, ?_, ?_, ?_⟩
  · intro c hc
    exact (List.mem_filter.1 hc).2
  · intro n hn
    rw [fetchTableNameG] at hn
    by_cases hcond : (!pyStrIsAlnumG alnum t && !List.all t fetchAllowedChar) = true
    · rw [if_pos hcond] at hn; cases hn
    · rw [if_neg hcond] at hn; cases hn; rfl
  · rw [fetchTableNameG]
    by_cases hcond : (!pyStrIsAlnumG alnum t && !List.all t fetchAllowedChar) = true
    · rw [if_pos hcond]
      constructor
      · intro h; cases h
      · intro hor
        exfalso
        rcases hor with h | h
        · rw [h] at hcond; simp at hcond
        · rw [h] at hcond; simp at hcond
    · rw [if_neg hcond]
      constructor
      · intro _
        cases ha : pyStrIsAlnumG alnum t with
        | true => exact Or.inl rfl
        | false =>
          cases hb : List.all t fetchAllowedChar with
          | true => exact Or.inr rfl
          | false => exact absurd (by rw [ha, hb]; rfl) hcond
      · intro _; rfl

/-- C6 witness: the acceptance characterization instantiated with the ASCII
isalnum at a concrete all-alphanumeric mixed-case name, which the fetch path
embeds unchanged. -/
theorem c6_table_name_handling_witness :
    fetchTableNameG pyIsAlnum capsName = some capsName :=
  (c6_table_name_handling pyIsAlnum pyLower capsName).2.2.2.2.2 (Or.inl (by decide))

/-- C8: the table that `create_table` defines has the synthetic serial
primary key first, the creation-timestamp column second, then one column per
source field in source order; the spec's 2-row example with integer `id`
and text `name` yields exactly the definitions `id SERIAL PRIMARY KEY`,
`created_at TIMESTAMP DEFAULT CURRENT_TIMESTAMP`, `id NUMERIC`, `name TEXT`
and exactly 2 data rows are handed to the driver. -/
theorem c8_persisted_shape :
    (∀ cols dtypes : List (List Char),
      (create_table_columns cols dtypes)[0]? = some idColumnDef ∧
      (create_table_columns cols dtypes)[1]? = some createdAtColumnDef) ∧
    (∀ (cols dtypes : List (List Char)) (i : Nat) (ci di : List Char),
      cols[i]? = some ci → dtypes[i]? = some di →
      (create_table_columns cols dtypes)[i + 2]? = some (columnDef ci di)) ∧
    (∀ (df : PyDataFrame) (tname : List Char),
      (save_to_postgres df tname).values.length = df.rows.length) ∧
    create_table_columns [idLabel, nameLabel] [int64Tag, objectTag] =
      [idColumnDef, createdAtColumnDef, idNumericDef, nameTextDef] ∧
    (save_to_postgres exampleFrame salesTableName).values.length = 2 := by
  refine ⟨fun cols dtypes => ⟨by simp [create_table_columns], by simp [create_table_columns]⟩,
    ?_, ?_, by decide, rfl⟩
  · intro cols dtypes i ci di h1 h2
    rw [create_table_columns, List.getElem?_cons_succ, List.getElem?_cons_succ,
      column_definitions, List.getElem?_map, zipGetElem cols dtypes i ci di h1 h2]
    rfl
  · intro df tname
    show ((df.rows.map (List.map fillna)).map (formatDatetimeRow df.dtypes)).length = _
    simp

/-- C8 witness: the positional shape evaluated at a concrete one-column
frame. -/
theorem c8_persisted_shape_witness :
    (create_table_columns [idLabel] [int64Tag])[2]? = some (columnDef idLabel int64Tag) :=
  c8_persisted_shape.2.1 [idLabel] [int64Tag] 0 idLabel int64Tag rfl rfl

/-- C9: identifier sanitization in `save_to_postgres` applies only to the
table name: the INSERT statement splices the sanitized table name but the
verbatim comma-joined column names into the fixed template, so every
character of every column name, including characters outside
alphanumeric+underscore, appears unchanged in the statement text, and every
CREATE TABLE column definition embeds the column name as given. -/
theorem c9_identifiers_verbatim :
    (∀ (df : PyDataFrame) (tname : List Char),
      (save_to_postgres df tname).insertQuery =
        insertPre ++ sanitizeTableName tname ++ insertMid ++ commaJoin df.cols ++ insertPost) ∧
    (∀ (df : PyDataFrame) (tname : List Char), ∀ col ∈ df.cols, ∀ c ∈ col,
      c ∈ (save_to_postgres df tname).insertQuery) ∧
    (∀ (df : PyDataFrame) (tname : List Char) (col dtype : List Char),
      (col, dtype) ∈ df.cols.zip df.dtypes →
      columnDef col dtype ∈ (save_to_postgres df tname).createColumns) := by
  refine ⟨fun df tname => rfl, ?_, ?_⟩
  · intro df tname col hcol c hc
    show c ∈ insertPre ++ sanitizeTableName tname ++ insertMid ++ commaJoin df.cols ++ insertPost
    have hj := mem_commaJoin hcol hc
    simp only [List.mem_append]
    tauto
  · intro df tname col dtype hmem
    show columnDef col dtype ∈ create_table_columns df.cols df.dtypes
    rw [create_table_columns]
    refine List.mem_cons.2 (Or.inr (List.mem_cons.2 (Or.inr ?_)))
    rw [column_definitions]
    exact List.mem_map.2 ⟨(col, dtype), hmem, rfl⟩

/-- C9 witness: the illegal character of a concrete column name appears
verbatim in the generated INSERT statement. -/
theorem c9_identifiers_verbatim_witness :
    '!' ∈ (save_to_postgres badFrame salesTableName).insertQuery :=
  c9_identifiers_verbatim.2.1 badFrame salesTableName badColName (by decide) '!' (by decide)

/-- C10: before insertion `save_to_postgres` rewrites every cell of every
column whose dtype tag is `datetime64[ns]` into a string formatted
`'%Y-%m-%d %H:%M:%S'`; the format carries at most second precision, so two
timestamps agreeing on all fields down to the second — whatever their
sub-second components — produce the same inserted string. -/
theorem c10_datetime_truncation :
    (∀ (df : PyDataFrame) (tname : List Char),
      (save_to_postgres df tname).values =
        (df.rows.map (List.map fillna)).map (formatDatetimeRow df.dtypes)) ∧
    (∀ (dtypes : List (List Char)) (row : List PyValue) (i : Nat) (d : List Char)
      (v : PyValue), dtypes[i]? = some d → row[i]? = some v →
      (formatDatetimeRow dtypes row)[i]? =
        some (if d = datetimeTag then fmtDatetimeVal v else v)) ∧
    (∀ t : PyTimestamp, fmtDatetimeVal (PyValue.vts t) = PyValue.vstr (strftimeYmdHms t)) ∧
    (∀ t1 t2 : PyTimestamp, t1.year = t2.year → t1.month = t2.month → t1.day = t2.day →
      t1.hour = t2.hour → t1.minute = t2.minute → t1.second = t2.second →
      strftimeYmdHms t1 = strftimeYmdHms t2) := by
  refine ⟨fun df tname => rfl, ?_, fun t => rfl, ?_⟩
  · intro dtypes row i d v h1 h2
    rw [formatDatetimeRow, List.getElem?_map, zipGetElem dtypes row i d v h1 h2]
    rfl
  · intro t1 t2 hy hmo hd hh hmi hs
    rw [strftimeYmdHms, strftimeYmdHms, hy, hmo, hd, hh, hmi, hs]

/-- C10 witness: two concrete timestamps differing only in the nanosecond
field format identically, and a concrete datetime cell is rewritten to its
formatted string. -/
theorem c10_datetime_truncation_witness :
    strftimeYmdHms tsA = strftimeYmdHms tsB ∧
    (formatDatetimeRow [datetimeTag] [PyValue.vts tsA])[0]? =
      some (PyValue.vstr (strftimeYmdHms tsA)) := by
  constructor
  · exact c10_datetime_truncation.2.2.2 tsA tsB rfl rfl rfl rfl rfl rfl
  · have h := c10_datetime_truncation.2.1 [datetimeTag] [PyValue.vts tsA] 0 datetimeTag
      (PyValue.vts tsA) rfl rfl
    simpa [fmtDatetimeVal] using h
